import Mathlib

/-!
Verification of `src/shopping.py` against its specification.

The program is a single-pass batch pipeline: it loads a CSV table of
e-commerce sessions into a pandas DataFrame, remaps the categorical and
boolean columns (`Month`, `VisitorType`, `Weekend`, `Revenue`) to integer
codes with `df.replace`, splits the table into a feature matrix (all
columns but the last) and a label vector (the last column, `Revenue`),
splits rows into train/test subsets, fits a 1-nearest-neighbor model and
reports sensitivity/specificity computed from the sklearn confusion
matrix.

The table is modelled as a list of rows, each row a list of `Cell`s; a
`Cell` carries the dtype pandas assigns to the value (integer, float
— modelled exactly as a rational —, string, or boolean).  Randomness of
the splitter appears as an explicit permutation parameter.  Fallible
steps (the out-of-bounds confusion-matrix reads in `evaluate`) return
`Except`; the non-finite float produced by a zero-denominator division
is modelled as `none`.
-/

namespace Shopping

/-- A cell of the in-memory table: pandas stores each value as an
integer, a floating-point number (modelled exactly as a rational), a
string, or a boolean, according to the inferred column dtype. -/
inductive Cell where
  | intVal (n : ℤ)
  | floatVal (q : ℚ)
  | strVal (s : String)
  | boolVal (b : Bool)
  deriving DecidableEq

/-- Header of the input file, in its fixed order (spec section 6; the
docstring of `load_data`, src/shopping.py:38-65). -/
def columnNames : List String :=
  ["Administrative", "Administrative_Duration", "Informational",
   "Informational_Duration", "ProductRelated", "ProductRelated_Duration",
   "BounceRates", "ExitRates", "PageValues", "SpecialDay", "Month",
   "OperatingSystems", "Browser", "Region", "TrafficType", "VisitorType",
   "Weekend", "Revenue"]

/-- The `Month` entry of `mapping` in `transform_df`
(src/shopping.py:130-135). -/
def monthMapping : List (String × ℤ) :=
  [("Jan", 0), ("Feb", 1), ("Mar", 2), ("Apr", 3), ("May", 4),
   ("June", 5), ("Jul", 6), ("Aug", 7), ("Sep", 8), ("Oct", 9),
   ("Nov", 10), ("Dec", 11)]

/-- The `VisitorType` entry of `mapping` in `transform_df`
(src/shopping.py:136-140). -/
def visitorTypeMapping : List (String × ℤ) :=
  [("Returning_Visitor", 1), ("New_Visitor", 0), ("Other", 0)]

/-- `df.replace` with a string-keyed dict on one column: a string cell
equal to some key of the dict is replaced by the mapped integer; every
other cell is left unchanged. -/
def applyStrMapping (m : List (String × ℤ)) (c : Cell) : Cell :=
  match c with
  | .strVal s =>
    match m.lookup s with
    | some n => .intVal n
    | none => c
  | _ => c

/-- `df.replace` with the dict mapping `True` to 1 and `False` to 0 on
one column (the `Weekend` and `Revenue` entries of `mapping`,
src/shopping.py:141-148): a boolean cell is replaced by its integer
code; every other cell is left unchanged. -/
def applyBoolMapping (c : Cell) : Cell :=
  match c with
  | .boolVal b => .intVal (if b then 1 else 0)
  | _ => c

/-- The replacement `df.replace(mapping)` performs on one cell, keyed by
the name of its column (src/shopping.py:129-150). -/
def transformCell (col : String) (c : Cell) : Cell :=
  if col = "Month" then applyStrMapping monthMapping c
  else if col = "VisitorType" then applyStrMapping visitorTypeMapping c
  else if col = "Weekend" then applyBoolMapping c
  else if col = "Revenue" then applyBoolMapping c
  else c

/-- One row of `df.replace(mapping)`: every cell is transformed
according to the name of its column. -/
def transformRow (r : List Cell) : List Cell :=
  (columnNames.zip r).map (fun p => transformCell p.1 p.2)

/-- `transform_df` (src/shopping.py:125-151): `df.replace(mapping)`,
applied row by row. -/
def transform_df (rows : List (List Cell)) : List (List Cell) :=
  rows.map transformRow

/-- `dataframe_to_list_of_lists` (src/shopping.py:154-162): the round
trip through `df.to_json(orient=split)` and `json.loads` returns the
rows of the DataFrame with every cell kept as it is, dtypes included
(preserving dtypes is the stated point of the function, see its
docstring); on the table model it is the identity on rows. -/
def dataframe_to_list_of_lists (rows : List (List Cell)) : List (List Cell) :=
  rows

/-- `dataframe_to_list_of_lists` applied to a pandas Series (the label
column `y`): the JSON round trip returns the values of the Series as a
flat list, each value kept as it is. -/
def series_to_list (cells : List Cell) : List Cell :=
  cells

/-- `load_data` (src/shopping.py:38-84) after `pd.read_csv` has produced
the table: transform the categorical/boolean columns, take
`X = df.iloc[:, :-1]` (every column but the last) and
`y = df.iloc[:, -1]` (the last column, `Revenue`), and convert both to
plain lists. -/
def load_data (rows : List (List Cell)) : List (List Cell) × List Cell :=
  let t := transform_df rows
  let X := t.map (fun r => r.dropLast)
  let y := t.filterMap (fun r => r.getLast?)
  (dataframe_to_list_of_lists X, series_to_list y)

/-- `np.unique` on a list of nonnegative integers (as used by sklearn
`confusion_matrix` on the concatenation of `y_true` and `y_pred`): the
sorted list of the distinct values occurring in the list, realised as
the increasing enumeration of every natural number up to the maximum
that occurs in the list. -/
def sortedUnique (l : List ℕ) : List ℕ :=
  (List.range (l.foldr max 0 + 1)).filter (fun x => decide (x ∈ l))

/-- Entry `cm[i, j]` of the sklearn confusion matrix for `y_true =
labels` and `y_pred = predictions`: rows are indexed by true label and
columns by predicted label, both ordered by the sorted distinct values;
the entry counts the positions whose true label is the `i`-th distinct
value and whose predicted label is the `j`-th distinct value.  An
out-of-bounds index is `none` (numpy raises `IndexError` there). -/
def cmEntry (labels predictions : List ℕ) (i j : ℕ) : Option ℕ :=
  let uls := sortedUnique (labels ++ predictions)
  match uls[i]?, uls[j]? with
  | some a, some b =>
    some ((labels.zip predictions).countP (fun p => p.1 == a && p.2 == b))
  | _, _ => none

/-- Float division of two counts as Python performs it in `evaluate`:
a zero denominator produces a non-finite float (NaN for `0 / 0`),
modelled as `none`; otherwise the quotient is exact. -/
def pydiv (a b : ℕ) : Option ℚ :=
  if b = 0 then none else some ((a : ℚ) / b)

/-- `evaluate` (src/shopping.py:97-122): build the confusion matrix,
read `TN = cm[0,0]`, `FN = cm[1,0]`, `FP = cm[0,1]`, `TP = cm[1,1]`
(an out-of-bounds read is a fatal uncaught `IndexError`, modelled as
`.error`), and return `(TP / (TP + FN), TN / (TN + FP))`.
`confusion_matrix` itself rejects inputs of different lengths with a
fatal `ValueError`. -/
def evaluate (labels predictions : List ℕ) :
    Except String (Option ℚ × Option ℚ) :=
  if labels.length ≠ predictions.length then
    .error "ValueError: inconsistent numbers of samples"
  else
    match cmEntry labels predictions 0 0, cmEntry labels predictions 1 0,
        cmEntry labels predictions 0 1, cmEntry labels predictions 1 1 with
    | some TN, some FN, some FP, some TP =>
      .ok (pydiv TP (TP + FN), pydiv TN (TN + FP))
    | _, _, _, _ => .error "IndexError"

/-- `TEST_SIZE` (src/shopping.py:11). -/
def TEST_SIZE : ℚ := 0.4

/-- Number of test rows for `n` input rows: the held-out fraction of
the row count, rounded up to a whole row. -/
def nTestOf (n : ℕ) : ℕ :=
  (Int.ceil (TEST_SIZE * (n : ℚ))).toNat

/-- Modelled from the spec: `sklearn.model_selection.train_test_split`
is library code, not part of this repository.  Spec section 4.2
describes it: it randomly partitions the row indices so that the
held-out fraction of the rows goes to the test set and the remainder to
the training set, preserving feature/label pairing, and returns train
features, test features, train labels, test labels.  Randomness appears
here as an explicit shuffled permutation `perm` of the row indices: the
first `nTestOf n` shuffled indices form the test set and the remaining
indices the training set. -/
def train_test_split {α β : Type} (X : List α) (y : List β)
    (perm : List ℕ) : List α × List α × List β × List β :=
  let k := nTestOf X.length
  let testIdx := perm.take k
  let trainIdx := perm.drop k
  (trainIdx.filterMap (fun i => X[i]?), testIdx.filterMap (fun i => X[i]?),
   trainIdx.filterMap (fun i => y[i]?), testIdx.filterMap (fun i => y[i]?))

/-- The observable outcome of the argument check at the top of `main`
(src/shopping.py:14-21): either the usage exit — `sys.exit` applied to
a string prints that string to standard error and terminates the
process with exit status 1, before any of the pipeline runs — or the
pipeline run on the single data-file argument. -/
inductive MainOutcome where
  | usageExit (stderrMsg : String) (exitCode : ℕ)
  | pipeline (dataFile : String)
  deriving DecidableEq

/-- The argument check of `main` (src/shopping.py:17-18): `sys.argv`
must hold exactly two entries, the program name and the data file. -/
def mainArgCheck (argv : List String) : MainOutcome :=
  if argv.length ≠ 2 then .usageExit "Usage: python shopping.py data" 1
  else .pipeline (argv.getD 1 "")

/-- `(y_test == predictions).sum()` (src/shopping.py:32): elementwise
comparison of the two sequences, then the sum of the resulting booleans
as integers. -/
def sumEq (y p : List ℕ) : ℕ :=
  ((y.zip p).map (fun q => if q.1 = q.2 then 1 else 0)).sum

/-- `(y_test != predictions).sum()` (src/shopping.py:33). -/
def sumNe (y p : List ℕ) : ℕ :=
  ((y.zip p).map (fun q => if q.1 ≠ q.2 then 1 else 0)).sum

/-- Rounding to the nearest integer with ties to even: the rounding
Python applies when formatting a float with a fixed number of decimal
digits. -/
def roundHalfEven (x : ℚ) : ℤ :=
  if x - ⌊x⌋ < 1 / 2 then ⌊x⌋
  else if 1 / 2 < x - ⌊x⌋ then ⌊x⌋ + 1
  else if Even ⌊x⌋ then ⌊x⌋ else ⌊x⌋ + 1

/-- The Python format `f string` directive `.2f`: the value rounded to
two decimal digits and printed with an optional minus sign, the integer
part, a decimal point and exactly two digit characters. -/
def fmt2 (v : ℚ) : String :=
  let n := roundHalfEven (v * 100)
  let m := n.natAbs
  (if n < 0 then "-" else "") ++ toString (m / 100) ++ "." ++
    String.mk [Nat.digitChar (m / 10 % 10), Nat.digitChar (m % 10)]

/-- The report printed by `main` (src/shopping.py:32-35), one string
per printed line, in print order. -/
def printResults (y_test predictions : List ℕ)
    (sensitivity specificity : ℚ) : List String :=
  ["Correct: " ++ toString (sumEq y_test predictions),
   "Incorrect: " ++ toString (sumNe y_test predictions),
   "True Positive Rate: " ++ fmt2 (100 * sensitivity) ++ "%",
   "True Negative Rate: " ++ fmt2 (100 * specificity) ++ "%"]

/-! ### Specification-side definitions

The following definitions restate, in the words of the spec, the
quantities the claims compare the code against. -/

/-- Spec-side count of true positives: positions whose true label is 1
and whose predicted label is 1. -/
def truePos (labels predictions : List ℕ) : ℕ :=
  (labels.zip predictions).countP (fun p => p.1 == 1 && p.2 == 1)

/-- Spec-side count of false negatives: true label 1, predicted 0. -/
def falseNeg (labels predictions : List ℕ) : ℕ :=
  (labels.zip predictions).countP (fun p => p.1 == 1 && p.2 == 0)

/-- Spec-side count of false positives: true label 0, predicted 1. -/
def falsePos (labels predictions : List ℕ) : ℕ :=
  (labels.zip predictions).countP (fun p => p.1 == 0 && p.2 == 1)

/-- Spec-side count of true negatives: true label 0, predicted 0. -/
def trueNeg (labels predictions : List ℕ) : ℕ :=
  (labels.zip predictions).countP (fun p => p.1 == 0 && p.2 == 0)

/-- Spec-side count of test rows whose prediction equals the true
label. -/
def numCorrect (labels predictions : List ℕ) : ℕ :=
  (labels.zip predictions).countP (fun p => p.1 == p.2)

/-- Spec-side count of test rows whose prediction differs from the true
label. -/
def numIncorrect (labels predictions : List ℕ) : ℕ :=
  (labels.zip predictions).countP (fun p => p.1 != p.2)

/-- The twelve expected `Month` strings of the spec, in calendar order:
the three-letter English abbreviations except that June is spelled out
fully. -/
def expectedMonths : List String :=
  ["Jan", "Feb", "Mar", "Apr", "May", "June", "Jul", "Aug", "Sep",
   "Oct", "Nov", "Dec"]

/-- Indices of the columns `pd.read_csv` parses as integers for a valid
input file. -/
def intColumns : List ℕ := [0, 2, 4, 11, 12, 13, 14]

/-- Indices of the columns `pd.read_csv` parses as floating-point
numbers for a valid input file. -/
def floatColumns : List ℕ := [1, 3, 5, 6, 7, 8, 9]

/-- A row as `pd.read_csv` delivers it for a valid input file (spec
section 6): 18 fields, numeric columns typed per column, `Month` a
string of the month table, `VisitorType` a string of the visitor table,
`Weekend` and `Revenue` booleans. -/
def RawRowValid (r : List Cell) : Prop :=
  r.length = 18 ∧
  (∀ j ∈ intColumns, ∃ n : ℤ, r[j]? = some (.intVal n)) ∧
  (∀ j ∈ floatColumns, ∃ q : ℚ, r[j]? = some (.floatVal q)) ∧
  (∃ s : String, r[10]? = some (.strVal s) ∧
    (monthMapping.lookup s).isSome = true) ∧
  (∃ s : String, r[15]? = some (.strVal s) ∧
    (visitorTypeMapping.lookup s).isSome = true) ∧
  (∃ b : Bool, r[16]? = some (.boolVal b)) ∧
  (∃ b : Bool, r[17]? = some (.boolVal b))

/-- Whether a cell appears among the keys of the `Month` replacement
table. -/
def inMonthTable (c : Cell) : Bool :=
  match c with
  | .strVal s => (monthMapping.lookup s).isSome
  | _ => false

/-- Whether a cell appears among the keys of the `VisitorType`
replacement table. -/
def inVisitorTable (c : Cell) : Bool :=
  match c with
  | .strVal s => (visitorTypeMapping.lookup s).isSome
  | _ => false

/-- Whether a cell appears among the keys of the `Weekend`/`Revenue`
replacement table, whose keys are the two booleans. -/
def inBoolTable (c : Cell) : Bool :=
  match c with
  | .boolVal _ => true
  | _ => false

/-- A string that ends in a decimal point followed by exactly two digit
characters. -/
def hasTwoDecimals (str : String) : Prop :=
  ∃ pre : String, ∃ d1 d2 : Char,
    str = pre ++ String.mk [Char.ofNat 46, d1, d2] ∧
    d1.isDigit = true ∧ d2.isDigit = true

/-- A fixed well-formed raw input row, used to instantiate the
universally quantified theorems below at a concrete input. -/
def sampleRawRow : List Cell :=
  [.intVal 0, .floatVal 0, .intVal 0, .floatVal 0, .intVal 1,
   .floatVal 0, .floatVal (1 / 5), .floatVal (1 / 5), .floatVal 0,
   .floatVal 0, .strVal "Feb", .intVal 1, .intVal 1, .intVal 1,
   .intVal 1, .strVal "Returning_Visitor", .boolVal false,
   .boolVal false]

/-! ### Helper lemmas -/

theorem getElem?_zip_pair {α β : Type} (a : List α) (b : List β) (j : ℕ) :
    (a.zip b)[j]? = match a[j]?, b[j]? with
      | some x, some y => some (x, y)
      | _, _ => none := by
  induction a generalizing b j with
  | nil => simp
  | cons x xs ih =>
    cases b with
    | nil => simp
    | cons y ys =>
      cases j with
      | zero => simp
      | succ j => simpa using ih ys j

theorem length_filterMap_all_isSome {α β : Type} (f : α → Option β)
    (l : List α) (h : ∀ x ∈ l, (f x).isSome) :
    (l.filterMap f).length = l.length := by
  induction l with
  | nil => rfl
  | cons a t ih =>
    rcases Option.isSome_iff_exists.mp (h a (by simp)) with ⟨b, hb⟩
    simp [List.filterMap_cons, hb, ih (fun x hx => h x (by simp [hx]))]

theorem foldr_max_le (l : List ℕ) (b : ℕ) (h : ∀ x ∈ l, x ≤ b) :
    l.foldr max 0 ≤ b := by
  induction l with
  | nil => simp
  | cons a t ih =>
    simp only [List.foldr_cons, max_le_iff]
    exact ⟨h a (by simp), ih (fun x hx => h x (by simp [hx]))⟩

theorem le_foldr_max (l : List ℕ) (x : ℕ) (h : x ∈ l) :
    x ≤ l.foldr max 0 := by
  induction l with
  | nil => simp at h
  | cons a t ih =>
    rcases List.mem_cons.mp h with rfl | hx
    · simp
    · exact le_trans (ih hx) (by simp)

theorem transformRow_getElem {r : List Cell} {j : ℕ} {c : Cell}
    (hc : r[j]? = some c) (hj : j < 18) :
    (transformRow r)[j]? = some (transformCell (columnNames.getD j "") c) := by
  have hcol : columnNames[j]? = some (columnNames.getD j "") := by
    interval_cases j <;> rfl
  rw [transformRow, List.getElem?_map, getElem?_zip_pair, hcol, hc]
  rfl

theorem transformCell_intVal (col : String) (n : ℤ) :
    transformCell col (.intVal n) = .intVal n := by
  unfold transformCell
  split
  · rfl
  split
  · rfl
  split
  · rfl
  split <;> rfl

theorem transformCell_floatVal (col : String) (q : ℚ) :
    transformCell col (.floatVal q) = .floatVal q := by
  unfold transformCell
  split
  · rfl
  split
  · rfl
  split
  · rfl
  split <;> rfl

theorem transformCell_month {s : String} {v : ℤ}
    (h : monthMapping.lookup s = some v) :
    transformCell "Month" (.strVal s) = .intVal v := by
  unfold transformCell
  rw [if_pos rfl]
  show (match monthMapping.lookup s with
    | some n => Cell.intVal n
    | none => Cell.strVal s) = Cell.intVal v
  rw [h]

theorem transformCell_visitor {s : String} {v : ℤ}
    (h : visitorTypeMapping.lookup s = some v) :
    transformCell "VisitorType" (.strVal s) = .intVal v := by
  unfold transformCell
  rw [if_neg (by decide), if_pos rfl]
  show (match visitorTypeMapping.lookup s with
    | some n => Cell.intVal n
    | none => Cell.strVal s) = Cell.intVal v
  rw [h]

theorem transformCell_weekend (b : Bool) :
    transformCell "Weekend" (.boolVal b) = .intVal (if b then 1 else 0) := by
  rfl

theorem transformCell_revenue (b : Bool) :
    transformCell "Revenue" (.boolVal b) = .intVal (if b then 1 else 0) := by
  rfl

theorem digitChar_isDigit {k : ℕ} (h : k < 10) :
    (Nat.digitChar k).isDigit = true := by
  revert h
  revert k
  decide

theorem sum_ite_eq_countP (l : List (ℕ × ℕ)) :
    (l.map (fun q => if q.1 = q.2 then 1 else 0)).sum =
      l.countP (fun q => q.1 == q.2) := by
  induction l with
  | nil => rfl
  | cons a t ih =>
    rw [List.map_cons, List.sum_cons, ih, List.countP_cons]
    by_cases h : a.1 = a.2 <;> simp [h] <;> omega

theorem sum_ite_ne_countP (l : List (ℕ × ℕ)) :
    (l.map (fun q => if q.1 ≠ q.2 then 1 else 0)).sum =
      l.countP (fun q => q.1 != q.2) := by
  induction l with
  | nil => rfl
  | cons a t ih =>
    rw [List.map_cons, List.sum_cons, ih, List.countP_cons]
    by_cases h : a.1 = a.2 <;> simp [h] <;> omega

theorem getElem?_dropLast_of_lt {α : Type} (l : List α) (i : ℕ)
    (h : i < l.length - 1) : l.dropLast[i]? = l[i]? := by
  rw [List.dropLast_eq_take, List.getElem?_take, if_pos h]

theorem transformRow_length (r : List Cell) :
    (transformRow r).length = min 18 r.length := by
  simp [transformRow, columnNames]

/-- C3: for well-formed input (every parsed row has the 18 header
fields), `load_data` produces a feature matrix with one row per source
row in source order, each feature row holding exactly 17 cells (all
columns except `Revenue`), and a label vector whose length equals the
number of feature rows. -/
theorem load_data_shape (rows : List (List Cell))
    (hrows : ∀ r ∈ rows, r.length = 18) :
    (load_data rows).1.length = rows.length ∧
    (∀ x ∈ (load_data rows).1, x.length = 17) ∧
    (load_data rows).2.length = (load_data rows).1.length ∧
    (∀ i : ℕ, i < rows.length →
      (load_data rows).1[i]? =
        (rows[i]?).map (fun r => (transformRow r).dropLast)) := by
  refine ⟨?_, ?_, ?_, ?_⟩
  · simp [load_data, dataframe_to_list_of_lists, transform_df]
  · intro x hx
    simp only [load_data, dataframe_to_list_of_lists, transform_df,
      List.map_map, List.mem_map] at hx
    obtain ⟨r, hr, rfl⟩ := hx
    simp only [Function.comp_apply, List.length_dropLast,
      transformRow_length, hrows r hr]
    omega
  · have hy : (load_data rows).2.length = rows.length := by
      simp only [load_data, series_to_list, transform_df]
      rw [length_filterMap_all_isSome]
      · simp
      · intro t ht
        obtain ⟨r, hr, rfl⟩ := List.mem_map.mp ht
        rw [Option.isSome_iff_ne_none, Ne, List.getLast?_eq_none_iff]
        intro hnil
        have := transformRow_length r
        rw [hnil, hrows r hr] at this
        simp at this
    rw [hy]
    simp [load_data, dataframe_to_list_of_lists, transform_df]
  · intro i hi
    simp [load_data, dataframe_to_list_of_lists, transform_df,
      List.map_map, List.getElem?_map]
    rfl

theorem transformRow_valid_types (r : List Cell) (h : RawRowValid r) :
    (∀ j ∈ ([0, 2, 4, 10, 11, 12, 13, 14, 15, 16, 17] : List ℕ),
      ∃ n : ℤ, (transformRow r)[j]? = some (.intVal n)) ∧
    (∀ j ∈ floatColumns,
      ∃ q : ℚ, (transformRow r)[j]? = some (.floatVal q)) := by
  obtain ⟨hlen, hint, hfloat, ⟨ms, hm, hmS⟩, ⟨vs, hv, hvS⟩, ⟨wb, hw⟩,
    ⟨rb, hr17⟩⟩ := h
  constructor
  · intro j hj
    fin_cases hj
    · obtain ⟨n, hn⟩ := hint 0 (by decide)
      exact ⟨n, by rw [transformRow_getElem hn (by norm_num),
        transformCell_intVal]⟩
    · obtain ⟨n, hn⟩ := hint 2 (by decide)
      exact ⟨n, by rw [transformRow_getElem hn (by norm_num),
        transformCell_intVal]⟩
    · obtain ⟨n, hn⟩ := hint 4 (by decide)
      exact ⟨n, by rw [transformRow_getElem hn (by norm_num),
        transformCell_intVal]⟩
    · obtain ⟨v, hv2⟩ := Option.isSome_iff_exists.mp hmS
      refine ⟨v, ?_⟩
      rw [transformRow_getElem hm (by norm_num)]
      show some (transformCell "Month" (.strVal ms)) = _
      rw [transformCell_month hv2]
    · obtain ⟨n, hn⟩ := hint 11 (by decide)
      exact ⟨n, by rw [transformRow_getElem hn (by norm_num),
        transformCell_intVal]⟩
    · obtain ⟨n, hn⟩ := hint 12 (by decide)
      exact ⟨n, by rw [transformRow_getElem hn (by norm_num),
        transformCell_intVal]⟩
    · obtain ⟨n, hn⟩ := hint 13 (by decide)
      exact ⟨n, by rw [transformRow_getElem hn (by norm_num),
        transformCell_intVal]⟩
    · obtain ⟨n, hn⟩ := hint 14 (by decide)
      exact ⟨n, by rw [transformRow_getElem hn (by norm_num),
        transformCell_intVal]⟩
    · obtain ⟨v, hv2⟩ := Option.isSome_iff_exists.mp hvS
      refine ⟨v, ?_⟩
      rw [transformRow_getElem hv (by norm_num)]
      show some (transformCell "VisitorType" (.strVal vs)) = _
      rw [transformCell_visitor hv2]
    · refine ⟨if wb then 1 else 0, ?_⟩
      rw [transformRow_getElem hw (by norm_num)]
      show some (transformCell "Weekend" (.boolVal wb)) = _
      rw [transformCell_weekend]
    · refine ⟨if rb then 1 else 0, ?_⟩
      rw [transformRow_getElem hr17 (by norm_num)]
      show some (transformCell "Revenue" (.boolVal rb)) = _
      rw [transformCell_revenue]
  · intro j hj
    fin_cases hj
    · obtain ⟨q, hq⟩ := hfloat 1 (by decide)
      exact ⟨q, by rw [transformRow_getElem hq (by norm_num),
        transformCell_floatVal]⟩
    · obtain ⟨q, hq⟩ := hfloat 3 (by decide)
      exact ⟨q, by rw [transformRow_getElem hq (by norm_num),
        transformCell_floatVal]⟩
    · obtain ⟨q, hq⟩ := hfloat 5 (by decide)
      exact ⟨q, by rw [transformRow_getElem hq (by norm_num),
        transformCell_floatVal]⟩
    · obtain ⟨q, hq⟩ := hfloat 6 (by decide)
      exact ⟨q, by rw [transformRow_getElem hq (by norm_num),
        transformCell_floatVal]⟩
    · obtain ⟨q, hq⟩ := hfloat 7 (by decide)
      exact ⟨q, by rw [transformRow_getElem hq (by norm_num),
        transformCell_floatVal]⟩
    · obtain ⟨q, hq⟩ := hfloat 8 (by decide)
      exact ⟨q, by rw [transformRow_getElem hq (by norm_num),
        transformCell_floatVal]⟩
    · obtain ⟨q, hq⟩ := hfloat 9 (by decide)
      exact ⟨q, by rw [transformRow_getElem hq (by norm_num),
        transformCell_floatVal]⟩
/-- C6: for every validly parsed row, the produced feature row keeps the
fixed per-column numeric type — the integer columns (including the
remapped `Month`, `VisitorType`, `Weekend`) hold integers and the float
columns hold floating-point numbers — and every label is the integer 0
or 1; values are not coerced to one uniform type. -/
theorem column_types (rows : List (List Cell))
    (h : ∀ r ∈ rows, RawRowValid r) :
    (∀ x ∈ (load_data rows).1,
      (∀ j ∈ ([0, 2, 4, 10, 11, 12, 13, 14, 15, 16] : List ℕ),
        ∃ n : ℤ, x[j]? = some (.intVal n)) ∧
      (∀ j ∈ floatColumns, ∃ q : ℚ, x[j]? = some (.floatVal q))) ∧
    (∀ c ∈ (load_data rows).2,
      ∃ n : ℤ, c = .intVal n ∧ (n = 0 ∨ n = 1)) := by
  constructor
  · intro x hx
    simp only [load_data, dataframe_to_list_of_lists, transform_df,
      List.map_map, List.mem_map] at hx
    obtain ⟨r, hr, rfl⟩ := hx
    have hval := h r hr
    have hlen : (transformRow r).length = 18 := by
      rw [transformRow_length, hval.1]
      omega
    have hdrop : ∀ j : ℕ, j < 17 →
        ((transformRow r).dropLast)[j]? = (transformRow r)[j]? := by
      intro j hj
      exact getElem?_dropLast_of_lt _ j (by omega)
    have htypes := transformRow_valid_types r hval
    constructor
    · intro j hj
      have hj17 : j < 17 := by fin_cases hj <;> norm_num
      have hmem : j ∈ ([0, 2, 4, 10, 11, 12, 13, 14, 15, 16, 17] : List ℕ) := by
        fin_cases hj <;> decide
      obtain ⟨n, hn⟩ := htypes.1 j hmem
      exact ⟨n, by rw [Function.comp_apply, hdrop j hj17, hn]⟩
    · intro j hj
      have hj17 : j < 17 := by fin_cases hj <;> norm_num
      obtain ⟨q, hq⟩ := htypes.2 j hj
      exact ⟨q, by rw [Function.comp_apply, hdrop j hj17, hq]⟩
  · intro c hc
    simp only [load_data, series_to_list, transform_df] at hc
    obtain ⟨t, ht, hlast⟩ := List.mem_filterMap.mp hc
    obtain ⟨r, hr, rfl⟩ := List.mem_map.mp ht
    have hval := h r hr
    obtain ⟨rb, hr17⟩ := hval.2.2.2.2.2.2
    have hlen : (transformRow r).length = 18 := by
      rw [transformRow_length, hval.1]
      omega
    have h17 : (transformRow r)[17]? = some (.intVal (if rb then 1 else 0)) := by
      rw [transformRow_getElem hr17 (by norm_num)]
      show some (transformCell "Revenue" (.boolVal rb)) = _
      rw [transformCell_revenue]
    rw [List.getLast?_eq_getElem?, hlen] at hlast
    norm_num at hlast
    rw [h17] at hlast
    refine ⟨if rb then 1 else 0, ?_, ?_⟩
    · rw [← Option.some_inj, hlast]
    · cases rb <;> simp
theorem load_data_shape_witness :
    (load_data [sampleRawRow]).1.length = [sampleRawRow].length :=
  (load_data_shape [sampleRawRow] (by intro r hr; rw [List.mem_singleton] at hr; subst hr; rfl)).1

theorem column_types_witness :
    ∃ n : ℤ, (load_data [sampleRawRow]).2.getD 0 (Cell.strVal "") =
      Cell.intVal n ∧ (n = 0 ∨ n = 1) :=
  (column_types [sampleRawRow] (by
    intro r hr
    rw [List.mem_singleton] at hr
    subst hr
    exact ⟨rfl, fun j hj => by fin_cases hj <;> exact ⟨_, rfl⟩,
      fun j hj => by fin_cases hj <;> exact ⟨_, rfl⟩,
      ⟨"Feb", rfl, by decide⟩, ⟨"Returning_Visitor", rfl, by decide⟩,
      ⟨false, rfl⟩, ⟨false, rfl⟩⟩)).2
    ((load_data [sampleRawRow]).2.getD 0 (Cell.strVal "")) (by decide)
/-- C8: if the program is invoked with an argument count other than
exactly one positional data-file argument (so `sys.argv` does not have
exactly two entries), `main` prints the usage message to standard error
and exits with the non-zero status 1, without running the pipeline
(the outcome is the `usageExit` constructor, not `pipeline`). -/
theorem usage_error (argv : List String) (h : argv.length ≠ 2) :
    mainArgCheck argv = .usageExit "Usage: python shopping.py data" 1 := by
  simp [mainArgCheck, h]

theorem usage_error_witness :
    mainArgCheck [] = .usageExit "Usage: python shopping.py data" 1 :=
  usage_error [] (by decide)

/-- C10: the loader maps the `VisitorType` string `Other` to the
integer 0, the same code as `New_Visitor`, and every code of the
`VisitorType` table is 0 or 1, so the feature is binary even though the
input admits three distinct strings. -/
theorem visitor_other_zero :
    transformCell "VisitorType" (.strVal "Other") = .intVal 0 ∧
    transformCell "VisitorType" (.strVal "New_Visitor") = .intVal 0 ∧
    visitorTypeMapping.all (fun p => p.2 == 0 || p.2 == 1) = true := by
  refine ⟨?_, ?_, ?_⟩ <;> decide

/-- C4: for every row whose `Month` field (column 10) is the `i`-th of
the twelve expected month strings, the loader remaps it to the integer
`i`; the expected strings are the three-letter English abbreviations
except that June is spelled out fully as `June`, and `Jun` is not
accepted. -/
theorem month_remap :
    (∀ (r : List Cell) (i : ℕ), i < 12 →
      r[10]? = some (.strVal (expectedMonths.getD i "")) →
      (transformRow r)[10]? = some (.intVal i)) ∧
    "June" ∈ expectedMonths ∧ "Jun" ∉ expectedMonths := by
  refine ⟨?_, by decide, by decide⟩
  intro r i hi hm
  rw [transformRow_getElem hm (by norm_num)]
  show some (transformCell "Month" (.strVal (expectedMonths.getD i ""))) = _
  interval_cases i <;> rfl

theorem month_remap_witness :
    (transformRow (List.replicate 10 (Cell.intVal 0) ++
      [Cell.strVal "June"]))[10]? = some (Cell.intVal 5) :=
  month_remap.1 (List.replicate 10 (Cell.intVal 0) ++ [Cell.strVal "June"])
    5 (by decide) (by decide)

/-- C5: a value in one of the four remapped columns that does not
appear in the fixed mapping table of that column is left unchanged by
the loader: no remapping and no rejection. -/
theorem unmapped_passthrough (c : Cell) :
    (inMonthTable c = false → transformCell "Month" c = c) ∧
    (inVisitorTable c = false → transformCell "VisitorType" c = c) ∧
    (inBoolTable c = false →
      transformCell "Weekend" c = c ∧ transformCell "Revenue" c = c) := by
  refine ⟨?_, ?_, ?_⟩
  · intro h
    cases c with
    | strVal s =>
      unfold transformCell
      rw [if_pos rfl]
      cases hl : monthMapping.lookup s with
      | some v => rw [inMonthTable, hl] at h; simp at h
      | none =>
        show (match monthMapping.lookup s with
          | some n => Cell.intVal n
          | none => Cell.strVal s) = Cell.strVal s
        rw [hl]
    | intVal n => exact transformCell_intVal _ n
    | floatVal q => exact transformCell_floatVal _ q
    | boolVal b =>
      unfold transformCell
      rw [if_pos rfl]
      rfl
  · intro h
    cases c with
    | strVal s =>
      unfold transformCell
      rw [if_neg (by decide), if_pos rfl]
      cases hl : visitorTypeMapping.lookup s with
      | some v => rw [inVisitorTable, hl] at h; simp at h
      | none =>
        show (match visitorTypeMapping.lookup s with
          | some n => Cell.intVal n
          | none => Cell.strVal s) = Cell.strVal s
        rw [hl]
    | intVal n => exact transformCell_intVal _ n
    | floatVal q => exact transformCell_floatVal _ q
    | boolVal b =>
      unfold transformCell
      rw [if_neg (by decide), if_pos rfl]
      rfl
  · intro h
    cases c with
    | strVal s => exact ⟨rfl, rfl⟩
    | intVal n => exact ⟨transformCell_intVal _ n, transformCell_intVal _ n⟩
    | floatVal q =>
      exact ⟨transformCell_floatVal _ q, transformCell_floatVal _ q⟩
    | boolVal b => rw [inBoolTable] at h; simp at h

theorem unmapped_passthrough_witness :
    transformCell "Month" (Cell.strVal "Jun") = Cell.strVal "Jun" ∧
    transformCell "VisitorType" (Cell.strVal "Guest") = Cell.strVal "Guest" ∧
    (transformCell "Weekend" (Cell.strVal "Jun") = Cell.strVal "Jun" ∧
      transformCell "Revenue" (Cell.strVal "Jun") = Cell.strVal "Jun") :=
  ⟨(unmapped_passthrough (Cell.strVal "Jun")).1 (by decide),
   (unmapped_passthrough (Cell.strVal "Guest")).2.1 (by decide),
   (unmapped_passthrough (Cell.strVal "Jun")).2.2 (by decide)⟩

theorem fmt2_twoDecimals (v : ℚ) : hasTwoDecimals (fmt2 v) := by
  refine ⟨(if roundHalfEven (v * 100) < 0 then "-" else "") ++
      toString ((roundHalfEven (v * 100)).natAbs / 100),
    Nat.digitChar ((roundHalfEven (v * 100)).natAbs / 10 % 10),
    Nat.digitChar ((roundHalfEven (v * 100)).natAbs % 10), ?_, ?_, ?_⟩
  · simp only [fmt2]
    rw [String.append_assoc]
    rfl
  · exact digitChar_isDigit (Nat.mod_lt _ (by norm_num))
  · exact digitChar_isDigit (Nat.mod_lt _ (by norm_num))

/-- C9: on a successful run the program writes exactly four lines to
standard output, in order: `Correct:` with the count of test rows whose
prediction equals the true label, `Incorrect:` with the count where
they differ, then the true positive rate and the true negative rate as
percentages, each formatted with exactly two decimal digits and a
trailing percent sign. -/
theorem report_format (y p : List ℕ) (s sp : ℚ) :
    (printResults y p s sp).length = 4 ∧
    printResults y p s sp =
      ["Correct: " ++ toString (numCorrect y p),
       "Incorrect: " ++ toString (numIncorrect y p),
       "True Positive Rate: " ++ fmt2 (100 * s) ++ "%",
       "True Negative Rate: " ++ fmt2 (100 * sp) ++ "%"] ∧
    hasTwoDecimals (fmt2 (100 * s)) ∧ hasTwoDecimals (fmt2 (100 * sp)) := by
  refine ⟨rfl, ?_, fmt2_twoDecimals _, fmt2_twoDecimals _⟩
  simp only [printResults, sumEq, sumNe, numCorrect, numIncorrect,
    sum_ite_eq_countP, sum_ite_ne_countP]

theorem sortedUnique_pair {l : List ℕ} (hle : ∀ x ∈ l, x ≤ 1)
    (h0 : 0 ∈ l) (h1 : 1 ∈ l) : sortedUnique l = [0, 1] := by
  have hmax : l.foldr max 0 = 1 :=
    le_antisymm (foldr_max_le l 1 hle) (le_foldr_max l 1 h1)
  rw [sortedUnique, hmax]
  show ([0, 1].filter fun x => decide (x ∈ l)) = [0, 1]
  simp [List.filter_cons, h0, h1]

theorem sortedUnique_ones {l : List ℕ} (hall : ∀ x ∈ l, x = 1)
    (hne : l ≠ []) : sortedUnique l = [1] := by
  obtain ⟨a, ha⟩ := List.exists_mem_of_ne_nil l hne
  have h1 : 1 ∈ l := by rw [← hall a ha]; exact ha
  have h0 : 0 ∉ l := fun h => by have := hall 0 h; omega
  have hmax : l.foldr max 0 = 1 :=
    le_antisymm (foldr_max_le l 1 (fun x hx => le_of_eq (hall x hx)))
      (le_foldr_max l 1 h1)
  rw [sortedUnique, hmax]
  show ([0, 1].filter fun x => decide (x ∈ l)) = [1]
  simp [List.filter_cons, h0, h1]

theorem sortedUnique_zeros {l : List ℕ} (hall : ∀ x ∈ l, x = 0)
    (hne : l ≠ []) : sortedUnique l = [0] := by
  obtain ⟨a, ha⟩ := List.exists_mem_of_ne_nil l hne
  have h0 : 0 ∈ l := by rw [← hall a ha]; exact ha
  have hmax : l.foldr max 0 = 0 :=
    le_antisymm (foldr_max_le l 0 (fun x hx => le_of_eq (hall x hx)))
      (Nat.zero_le _)
  rw [sortedUnique, hmax]
  show ([0].filter fun x => decide (x ∈ l)) = [0]
  simp [List.filter_cons, h0]

theorem evaluate_eq_of_pair {labels predictions : List ℕ}
    (hlen : labels.length = predictions.length)
    (huls : sortedUnique (labels ++ predictions) = [0, 1]) :
    evaluate labels predictions =
      .ok (pydiv (truePos labels predictions)
            (truePos labels predictions + falseNeg labels predictions),
          pydiv (trueNeg labels predictions)
            (trueNeg labels predictions + falsePos labels predictions)) := by
  have c00 : cmEntry labels predictions 0 0 = some (trueNeg labels predictions) := by
    simp only [cmEntry, huls]
    rfl
  have c10 : cmEntry labels predictions 1 0 = some (falseNeg labels predictions) := by
    simp only [cmEntry, huls]
    rfl
  have c01 : cmEntry labels predictions 0 1 = some (falsePos labels predictions) := by
    simp only [cmEntry, huls]
    rfl
  have c11 : cmEntry labels predictions 1 1 = some (truePos labels predictions) := by
    simp only [cmEntry, huls]
    rfl
  unfold evaluate
  rw [if_neg (by omega), c00, c10, c01, c11]

theorem TPFN_pos {labels predictions : List ℕ}
    (hlen : labels.length = predictions.length)
    (hp : ∀ x ∈ predictions, x ≤ 1) (h1 : 1 ∈ labels) :
    0 < truePos labels predictions + falseNeg labels predictions := by
  obtain ⟨k, hk, hk1⟩ := List.mem_iff_getElem.mp h1
  have hkp : k < predictions.length := by omega
  have hpair : (1, predictions[k]) ∈ labels.zip predictions := by
    rw [List.mem_iff_getElem]
    refine ⟨k, by rw [List.length_zip]; omega, ?_⟩
    rw [List.getElem_zip, hk1]
  have hple : predictions[k] ≤ 1 := hp _ (List.getElem_mem hkp)
  have h01 : predictions[k] = 0 ∨ predictions[k] = 1 := by omega
  rcases h01 with h | h
  · have hpos : 0 < falseNeg labels predictions := by
      rw [falseNeg]
      exact List.countP_pos_iff.mpr ⟨_, hpair, by simp [h]⟩
    omega
  · have hpos : 0 < truePos labels predictions := by
      rw [truePos]
      exact List.countP_pos_iff.mpr ⟨_, hpair, by simp [h]⟩
    omega

theorem TNFP_pos {labels predictions : List ℕ}
    (hlen : labels.length = predictions.length)
    (hp : ∀ x ∈ predictions, x ≤ 1) (h0 : 0 ∈ labels) :
    0 < trueNeg labels predictions + falsePos labels predictions := by
  obtain ⟨k, hk, hk0⟩ := List.mem_iff_getElem.mp h0
  have hkp : k < predictions.length := by omega
  have hpair : (0, predictions[k]) ∈ labels.zip predictions := by
    rw [List.mem_iff_getElem]
    refine ⟨k, by rw [List.length_zip]; omega, ?_⟩
    rw [List.getElem_zip, hk0]
  have hple : predictions[k] ≤ 1 := hp _ (List.getElem_mem hkp)
  have h01 : predictions[k] = 0 ∨ predictions[k] = 1 := by omega
  rcases h01 with h | h
  · have hpos : 0 < trueNeg labels predictions := by
      rw [trueNeg]
      exact List.countP_pos_iff.mpr ⟨_, hpair, by simp [h]⟩
    omega
  · have hpos : 0 < falsePos labels predictions := by
      rw [falsePos]
      exact List.countP_pos_iff.mpr ⟨_, hpair, by simp [h]⟩
    omega
/-- C1: for equal-length label/prediction lists with values in 0..1
whose labels contain both classes, `evaluate` returns the pair
(sensitivity, specificity) with sensitivity = TP / (TP + FN) and
specificity = TN / (TN + FP), the four counts read off the 2x2
confusion matrix whose rows are true labels and whose columns are
predicted labels, both ordered 0 then 1; in particular for
labels = [1,1,0,0] and predictions = [1,0,0,1] it returns (0.5, 0.5). -/
theorem evaluate_confusion :
    (∀ labels predictions : List ℕ,
      labels.length = predictions.length →
      (∀ x ∈ labels, x ≤ 1) → (∀ x ∈ predictions, x ≤ 1) →
      0 ∈ labels → 1 ∈ labels →
      evaluate labels predictions =
        .ok (some ((truePos labels predictions : ℚ) /
              ((truePos labels predictions : ℚ) +
                (falseNeg labels predictions : ℚ))),
            some ((trueNeg labels predictions : ℚ) /
              ((trueNeg labels predictions : ℚ) +
                (falsePos labels predictions : ℚ))))) ∧
    evaluate [1, 1, 0, 0] [1, 0, 0, 1] = .ok (some (1 / 2), some (1 / 2)) := by
  constructor
  · intro labels predictions hlen hl hp h0 h1
    have hle : ∀ x ∈ labels ++ predictions, x ≤ 1 := by
      intro x hx
      rcases List.mem_append.mp hx with h | h
      · exact hl x h
      · exact hp x h
    have huls := sortedUnique_pair hle (List.mem_append.mpr (Or.inl h0))
      (List.mem_append.mpr (Or.inl h1))
    rw [evaluate_eq_of_pair hlen huls]
    have hTPFN := TPFN_pos hlen hp h1
    have hTNFP := TNFP_pos hlen hp h0
    rw [pydiv, pydiv, if_neg (by omega), if_neg (by omega)]
    push_cast
    rfl
  · rfl

theorem evaluate_confusion_witness :
    evaluate [1, 1, 0, 0] [1, 0, 0, 1] =
      .ok (some ((truePos [1, 1, 0, 0] [1, 0, 0, 1] : ℚ) /
            ((truePos [1, 1, 0, 0] [1, 0, 0, 1] : ℚ) +
              (falseNeg [1, 1, 0, 0] [1, 0, 0, 1] : ℚ))),
          some ((trueNeg [1, 1, 0, 0] [1, 0, 0, 1] : ℚ) /
            ((trueNeg [1, 1, 0, 0] [1, 0, 0, 1] : ℚ) +
              (falsePos [1, 1, 0, 0] [1, 0, 0, 1] : ℚ)))) :=
  evaluate_confusion.1 [1, 1, 0, 0] [1, 0, 0, 1] rfl (by decide) (by decide)
    (by decide) (by decide)
/-- C2: if the test labels contain zero negative (or zero positive)
examples — such as labels = [1,1,1,1] with predictions = [1,1,1,1] —
`evaluate` does not return a silently wrong number: the affected metric
either surfaces as the non-finite error value NaN (modelled `none`,
when the confusion matrix is still 2x2 and the denominator count is
zero) or the whole call is a fatal uncaught error terminating the run
(modelled `.error`, the `IndexError` raised when the matrix collapses
to 1x1); on the quoted example the call is the fatal `IndexError`. -/
theorem evaluate_degenerate_class :
    (∀ labels predictions : List ℕ,
      labels.length = predictions.length → labels ≠ [] →
      (∀ x ∈ labels, x ≤ 1) → (∀ x ∈ predictions, x ≤ 1) →
      ((0 ∉ labels →
        (∃ e, evaluate labels predictions = .error e) ∨
        (∃ s : Option ℚ, evaluate labels predictions = .ok (s, none))) ∧
       (1 ∉ labels →
        (∃ e, evaluate labels predictions = .error e) ∨
        (∃ s : Option ℚ, evaluate labels predictions = .ok (none, s))))) ∧
    evaluate [1, 1, 1, 1] [1, 1, 1, 1] = .error "IndexError" := by
  constructor
  · intro labels predictions hlen hne hl hp
    have hle : ∀ x ∈ labels ++ predictions, x ≤ 1 := by
      intro x hx
      rcases List.mem_append.mp hx with h | h
      · exact hl x h
      · exact hp x h
    constructor
    · intro h0
      have hall1 : ∀ x ∈ labels, x = 1 := by
        intro x hx
        have hxle := hl x hx
        have hx0 : x ≠ 0 := fun h => h0 (h ▸ hx)
        omega
      have h1l : 1 ∈ labels := by
        obtain ⟨a, ha⟩ := List.exists_mem_of_ne_nil labels hne
        rw [← hall1 a ha]
        exact ha
      by_cases hp0 : 0 ∈ predictions
      · right
        have huls := sortedUnique_pair hle
          (List.mem_append.mpr (Or.inr hp0)) (List.mem_append.mpr (Or.inl h1l))
        refine ⟨pydiv (truePos labels predictions)
          (truePos labels predictions + falseNeg labels predictions), ?_⟩
        rw [evaluate_eq_of_pair hlen huls]
        have hTN : trueNeg labels predictions = 0 := by
          rw [trueNeg, List.countP_eq_zero]
          rintro ⟨q1, q2⟩ hq
          have hq1 : q1 = 1 := hall1 q1 (List.of_mem_zip hq).1
          simp [hq1]
        have hFP : falsePos labels predictions = 0 := by
          rw [falsePos, List.countP_eq_zero]
          rintro ⟨q1, q2⟩ hq
          have hq1 : q1 = 1 := hall1 q1 (List.of_mem_zip hq).1
          simp [hq1]
        rw [hTN, hFP]
        rfl
      · left
        have hallp1 : ∀ x ∈ predictions, x = 1 := by
          intro x hx
          have hxle := hp x hx
          have hx0 : x ≠ 0 := fun h => hp0 (h ▸ hx)
          omega
        have hall : ∀ x ∈ labels ++ predictions, x = 1 := by
          intro x hx
          rcases List.mem_append.mp hx with h | h
          · exact hall1 x h
          · exact hallp1 x h
        have huls := sortedUnique_ones hall (by simp [hne])
        refine ⟨"IndexError", ?_⟩
        have c00 : cmEntry labels predictions 0 0 =
            some ((labels.zip predictions).countP
              (fun q => q.1 == 1 && q.2 == 1)) := by
          simp only [cmEntry, huls]
          rfl
        have c10 : cmEntry labels predictions 1 0 = none := by
          simp only [cmEntry, huls]
          rfl
        have c01 : cmEntry labels predictions 0 1 = none := by
          simp only [cmEntry, huls]
          rfl
        have c11 : cmEntry labels predictions 1 1 = none := by
          simp only [cmEntry, huls]
          rfl
        unfold evaluate
        rw [if_neg (by omega), c00, c10, c01, c11]
    · intro h1
      have hall0 : ∀ x ∈ labels, x = 0 := by
        intro x hx
        have hxle := hl x hx
        have hx1 : x ≠ 1 := fun h => h1 (h ▸ hx)
        omega
      have h0l : 0 ∈ labels := by
        obtain ⟨a, ha⟩ := List.exists_mem_of_ne_nil labels hne
        rw [← hall0 a ha]
        exact ha
      by_cases hp1 : 1 ∈ predictions
      · right
        have huls := sortedUnique_pair hle
          (List.mem_append.mpr (Or.inl h0l)) (List.mem_append.mpr (Or.inr hp1))
        refine ⟨pydiv (trueNeg labels predictions)
          (trueNeg labels predictions + falsePos labels predictions), ?_⟩
        rw [evaluate_eq_of_pair hlen huls]
        have hTP : truePos labels predictions = 0 := by
          rw [truePos, List.countP_eq_zero]
          rintro ⟨q1, q2⟩ hq
          have hq1 : q1 = 0 := hall0 q1 (List.of_mem_zip hq).1
          simp [hq1]
        have hFN : falseNeg labels predictions = 0 := by
          rw [falseNeg, List.countP_eq_zero]
          rintro ⟨q1, q2⟩ hq
          have hq1 : q1 = 0 := hall0 q1 (List.of_mem_zip hq).1
          simp [hq1]
        rw [hTP, hFN]
        rfl
      · left
        have hallp0 : ∀ x ∈ predictions, x = 0 := by
          intro x hx
          have hxle := hp x hx
          have hx1 : x ≠ 1 := fun h => hp1 (h ▸ hx)
          omega
        have hall : ∀ x ∈ labels ++ predictions, x = 0 := by
          intro x hx
          rcases List.mem_append.mp hx with h | h
          · exact hall0 x h
          · exact hallp0 x h
        have huls := sortedUnique_zeros hall (by simp [hne])
        refine ⟨"IndexError", ?_⟩
        have c00 : cmEntry labels predictions 0 0 =
            some ((labels.zip predictions).countP
              (fun q => q.1 == 0 && q.2 == 0)) := by
          simp only [cmEntry, huls]
          rfl
        have c10 : cmEntry labels predictions 1 0 = none := by
          simp only [cmEntry, huls]
          rfl
        have c01 : cmEntry labels predictions 0 1 = none := by
          simp only [cmEntry, huls]
          rfl
        have c11 : cmEntry labels predictions 1 1 = none := by
          simp only [cmEntry, huls]
          rfl
        unfold evaluate
        rw [if_neg (by omega), c00, c10, c01, c11]
  · rfl

theorem evaluate_degenerate_class_witness :
    (∃ e, evaluate [1, 1] [1, 0] = .error e) ∨
    (∃ s : Option ℚ, evaluate [1, 1] [1, 0] = .ok (s, none)) :=
  ((evaluate_degenerate_class.1 [1, 1] [1, 0] rfl (by decide) (by decide)
    (by decide)).1 (by decide))

theorem nTestOf_bounds (n : ℕ) :
    2 * n ≤ 5 * nTestOf n ∧ 5 * nTestOf n < 2 * n + 5 := by
  have hts : TEST_SIZE = 2 / 5 := by norm_num [TEST_SIZE]
  have hnn : (0 : ℚ) ≤ TEST_SIZE * n := by
    rw [hts]
    positivity
  have h1 := Int.le_ceil (TEST_SIZE * (n : ℚ))
  have h2 := Int.ceil_lt_add_one (TEST_SIZE * (n : ℚ))
  have hk : ((nTestOf n : ℕ) : ℚ) = ((⌈TEST_SIZE * (n : ℚ)⌉ : ℤ) : ℚ) := by
    rw [nTestOf]
    exact_mod_cast congrArg (fun z : ℤ => (z : ℚ))
      (Int.toNat_of_nonneg (Int.ceil_nonneg hnn))
  rw [hts] at h1 h2 hk
  constructor
  · have hq : (2 * n : ℚ) ≤ 5 * (nTestOf n : ℚ) := by
      rw [hk]
      linarith
    exact_mod_cast hq
  · have hq : 5 * (nTestOf n : ℚ) < 2 * n + 5 := by
      rw [hk]
      linarith
    exact_mod_cast hq

theorem gather_zip {α β : Type} (X : List α) (y : List β) (idx : List ℕ)
    (hxy : X.length = y.length) (hlt : ∀ i ∈ idx, i < X.length) :
    (idx.filterMap (fun i => X[i]?)).zip (idx.filterMap (fun i => y[i]?)) =
      idx.filterMap (fun i => (X.zip y)[i]?) := by
  induction idx with
  | nil => rfl
  | cons i t ih =>
    have hi : i < X.length := hlt i (by simp)
    have hiy : i < y.length := by omega
    have hx : X[i]? = some (X.get ⟨i, hi⟩) := List.getElem?_eq_getElem hi
    have hy : y[i]? = some (y.get ⟨i, hiy⟩) := List.getElem?_eq_getElem hiy
    have hxyz : (X.zip y)[i]? = some (X.get ⟨i, hi⟩, y.get ⟨i, hiy⟩) := by
      rw [getElem?_zip_pair, hx, hy]
    simp only [List.filterMap_cons, hx, hy, hxyz]
    rw [List.zip_cons_cons, ih (fun j hj => hlt j (by simp [hj]))]
/-- C7: for every (features, labels) input of equal lengths and every
shuffled permutation of the row indices, the splitter sends the
held-out fraction 0.4 of the rows (within rounding: the test count `k`
satisfies 2n <= 5k < 2n + 5) to the test set and the remainder to the
training set; the test and train index sets are disjoint and their
union is a permutation of all row indices; and feature/label pairing is
preserved: zipping the test (resp. train) features with the test
(resp. train) labels gives exactly the feature/label pairs of the
source rows at the test (resp. train) indices. -/
theorem split_partition {α β : Type} (X : List α) (y : List β)
    (perm : List ℕ) (hxy : X.length = y.length)
    (hperm : perm.Perm (List.range X.length)) :
    List.Disjoint (perm.take (nTestOf X.length))
      (perm.drop (nTestOf X.length)) ∧
    (perm.take (nTestOf X.length) ++
      perm.drop (nTestOf X.length)).Perm (List.range X.length) ∧
    (2 * X.length ≤ 5 * nTestOf X.length ∧
      5 * nTestOf X.length < 2 * X.length + 5) ∧
    ((train_test_split X y perm).2.1.length = nTestOf X.length ∧
     (train_test_split X y perm).1.length = X.length - nTestOf X.length ∧
     (train_test_split X y perm).2.2.2.length =
       (train_test_split X y perm).2.1.length ∧
     (train_test_split X y perm).2.2.1.length =
       (train_test_split X y perm).1.length) ∧
    ((train_test_split X y perm).2.1.zip (train_test_split X y perm).2.2.2 =
      (perm.take (nTestOf X.length)).filterMap (fun i => (X.zip y)[i]?) ∧
     (train_test_split X y perm).1.zip (train_test_split X y perm).2.2.1 =
      (perm.drop (nTestOf X.length)).filterMap (fun i => (X.zip y)[i]?)) := by
  have hmemlt : ∀ i ∈ perm, i < X.length := by
    intro i hi
    exact List.mem_range.mp (hperm.mem_iff.mp hi)
  have hpl : perm.length = X.length := by
    rw [hperm.length_eq, List.length_range]
  have hnodup : perm.Nodup := hperm.nodup_iff.mpr (List.nodup_range _)
  have hbounds := nTestOf_bounds X.length
  have hkn : nTestOf X.length ≤ X.length := by omega
  have htakelt : ∀ i ∈ perm.take (nTestOf X.length), i < X.length :=
    fun i hi => hmemlt i (List.take_subset _ _ hi)
  have hdroplt : ∀ i ∈ perm.drop (nTestOf X.length), i < X.length :=
    fun i hi => hmemlt i (List.drop_subset _ _ hi)
  have hXtake : ((perm.take (nTestOf X.length)).filterMap
      (fun i => X[i]?)).length = (perm.take (nTestOf X.length)).length :=
    length_filterMap_all_isSome _ _ (fun i hi => by
      rw [List.getElem?_eq_getElem (htakelt i hi)]
      rfl)
  have hXdrop : ((perm.drop (nTestOf X.length)).filterMap
      (fun i => X[i]?)).length = (perm.drop (nTestOf X.length)).length :=
    length_filterMap_all_isSome _ _ (fun i hi => by
      rw [List.getElem?_eq_getElem (hdroplt i hi)]
      rfl)
  have hYtake : ((perm.take (nTestOf X.length)).filterMap
      (fun i => y[i]?)).length = (perm.take (nTestOf X.length)).length :=
    length_filterMap_all_isSome _ _ (fun i hi => by
      rw [List.getElem?_eq_getElem
        (show i < y.length by have := htakelt i hi; omega)]
      rfl)
  have hYdrop : ((perm.drop (nTestOf X.length)).filterMap
      (fun i => y[i]?)).length = (perm.drop (nTestOf X.length)).length :=
    length_filterMap_all_isSome _ _ (fun i hi => by
      rw [List.getElem?_eq_getElem
        (show i < y.length by have := hdroplt i hi; omega)]
      rfl)
  refine ⟨List.disjoint_take_drop hnodup le_rfl, ?_, hbounds,
    ⟨?_, ?_, ?_, ?_⟩, ?_, ?_⟩
  · rw [List.take_append_drop]
    exact hperm
  · show ((perm.take (nTestOf X.length)).filterMap
      (fun i => X[i]?)).length = nTestOf X.length
    rw [hXtake, List.length_take, hpl]
    omega
  · show ((perm.drop (nTestOf X.length)).filterMap
      (fun i => X[i]?)).length = X.length - nTestOf X.length
    rw [hXdrop, List.length_drop, hpl]
  · show ((perm.take (nTestOf X.length)).filterMap
      (fun i => y[i]?)).length = ((perm.take (nTestOf X.length)).filterMap
      (fun i => X[i]?)).length
    rw [hYtake, hXtake]
  · show ((perm.drop (nTestOf X.length)).filterMap
      (fun i => y[i]?)).length = ((perm.drop (nTestOf X.length)).filterMap
      (fun i => X[i]?)).length
    rw [hYdrop, hXdrop]
  · show ((perm.take (nTestOf X.length)).filterMap
        (fun i => X[i]?)).zip ((perm.take (nTestOf X.length)).filterMap
        (fun i => y[i]?)) = _
    exact gather_zip X y _ hxy htakelt
  · show ((perm.drop (nTestOf X.length)).filterMap
        (fun i => X[i]?)).zip ((perm.drop (nTestOf X.length)).filterMap
        (fun i => y[i]?)) = _
    exact gather_zip X y _ hxy hdroplt

theorem split_partition_witness :
    2 * ([[Cell.intVal 0], [Cell.intVal 1], [Cell.intVal 2]] :
        List (List Cell)).length ≤
      5 * nTestOf ([[Cell.intVal 0], [Cell.intVal 1], [Cell.intVal 2]] :
        List (List Cell)).length ∧
    5 * nTestOf ([[Cell.intVal 0], [Cell.intVal 1], [Cell.intVal 2]] :
        List (List Cell)).length <
      2 * ([[Cell.intVal 0], [Cell.intVal 1], [Cell.intVal 2]] :
        List (List Cell)).length + 5 :=
  (split_partition [[Cell.intVal 0], [Cell.intVal 1], [Cell.intVal 2]]
    [Cell.intVal 0, Cell.intVal 0, Cell.intVal 1] [2, 0, 1] rfl
    (by decide)).2.2.1

end Shopping
